import Mathlib

/-!
Verification of the LightRAG knowledge-graph management module
(`lightrag/kg_manage.py`): a shallow embedding of the three operations
`insert_custom_relations`, `update_entity`, `update_relation` and the
finalization helper `_insert_done`, together with proofs about them.

Attribute maps (Python `dict`s) are modelled as association lists with
replace-in-place upsert, matching CPython's insertion-order semantics.
Each operation is a pure function from a graph-store state and its inputs
to an output record carrying the new graph state, the trace of
vector-index upsert calls, the trace of finalize (`index_done_callback`)
calls, and the returned result (or a propagated store fault).
-/

/-- Attribute values: strings, or numeric literals carried as their
literal text (e.g. the default weight `1.0`); nothing in the module
computes on numbers, they are stored and returned verbatim. -/
inductive Val where
  | s : String → Val
  | num : String → Val
deriving DecidableEq, Repr

/-- Rendering of a value into a string, as Python f-string interpolation
or `+`-concatenation does for the (string) values this module handles. -/
def Val.render : Val → String
  | .s v => v
  | .num v => v

/-- A Python `dict` of attributes: an association list, later assignments
replacing the value at the key's original position. -/
abbrev Dict := List (String × Val)

/-- Association-list lookup (first match; well-formed dicts have unique
keys, so first match is the binding). -/
def assocGet {α β : Type} [DecidableEq α] : List (α × β) → α → Option β
  | [], _ => none
  | (k', v) :: rest, k => if k' = k then some v else assocGet rest k

/-- Association-list upsert: replace the value at an existing key in
place, else append the binding at the end — CPython dict assignment. -/
def assocUpsert {α β : Type} [DecidableEq α] : List (α × β) → α → β → List (α × β)
  | [], k, v => [(k, v)]
  | (k', v') :: rest, k, v =>
      if k' = k then (k, v) :: rest else (k', v') :: assocUpsert rest k v

/-- Python `{**a, **b}`: start from `a` and assign every binding of `b`
in order (incoming keys win, unmentioned keys of `a` survive). -/
def dictMerge (a b : Dict) : Dict :=
  b.foldl (fun acc kv => assocUpsert acc kv.1 kv.2) a

/-- Python `d.get(k, default)` followed by use as a string. -/
def dictGetD (d : Dict) (k : String) (dflt : String) : String :=
  match assocGet d k with
  | some v => v.render
  | none => dflt

/-- Key sets of a well-formed Python dict are duplicate-free. -/
def isDict (d : Dict) : Prop := (d.map Prod.fst).Nodup

instance (d : Dict) : Decidable (isDict d) := by
  unfold isDict; infer_instance

/-- The graph store (`rag.chunk_entity_relation_graph`): nodes keyed by
entity name, directed edges keyed by the ordered name pair. -/
structure GraphStore where
  nodes : List (String × Dict)
  edges : List ((String × String) × Dict)
deriving DecidableEq, Repr

def hasNode (g : GraphStore) (k : String) : Bool :=
  (assocGet g.nodes k).isSome

def getNode (g : GraphStore) (k : String) : Option Dict :=
  assocGet g.nodes k

def upsertNode (g : GraphStore) (k : String) (d : Dict) : GraphStore :=
  { g with nodes := assocUpsert g.nodes k d }

def hasEdge (g : GraphStore) (src tgt : String) : Bool :=
  (assocGet g.edges (src, tgt)).isSome

def getEdge (g : GraphStore) (src tgt : String) : Option Dict :=
  assocGet g.edges (src, tgt)

def upsertEdge (g : GraphStore) (src tgt : String) (d : Dict) : GraphStore :=
  { g with edges := assocUpsert g.edges (src, tgt) d }

/-- Python `str.upper()`: uppercase every character (ASCII case mapping,
written out directly so it evaluates in the kernel). -/
def strUpper (s : String) : String :=
  ⟨s.data.map Char.toUpper⟩

/-- The name transform `f⟨dq⟩⟨name.upper()⟩⟨dq⟩` applied to relation
endpoints in `insert_custom_relations` and `update_relation`. -/
def normalizeName (s : String) : String :=
  "\"" ++ strUpper s ++ "\""

/-- Modelled from the spec: `compute_mdhash_id` lives in `lightrag.utils`,
outside the provided sources. Per the spec (Identity Hasher, 4.1) it is a
pure, deterministic, collision-resistant content digest of the given
string with a kind-specific leading tag. The digest itself is modelled as
the identity encoding of the content — every claim here depends only on
WHICH content string is hashed and on key equality, and the identity
encoding is deterministic and injective, so it satisfies the hasher
contract exactly on the properties used. -/
def compute_mdhash_id (content : String) (pfx : String) : String :=
  pfx ++ content

/-- The three storage instances that `_insert_done` touches. -/
inductive StoreId where
  | entitiesVdb
  | relationshipsVdb
  | graph
deriving DecidableEq, Repr

/-- `_insert_done` gathers `index_done_callback` on this fixed list of
storage instances (all assumed present, as in the source's list). -/
def insertDoneStores : List StoreId :=
  [StoreId.entitiesVdb, StoreId.relationshipsVdb, StoreId.graph]

/-- Payload upserted into the entities vector index by `update_entity`. -/
structure EntPayload where
  content : String
  entity_name : String
deriving DecidableEq, Repr

/-- Payload upserted into the relationships vector index. -/
structure RelPayload where
  src_id : String
  tgt_id : String
  content : String
deriving DecidableEq, Repr

/-- The result dict of `update_entity` / `update_relation`: a status
string (`success`/`failed`), a message, and the merged data (or none). -/
structure UpdateResult where
  status : String
  message : String
  updated_data : Option Dict
deriving DecidableEq, Repr

deriving instance DecidableEq for Except

/-- Everything observable about one `update_entity` call: the graph
state after it, the entity-vdb upsert calls it made (each call a batch of
key-payload pairs), the `_insert_done` finalize calls (each the list of
stores finalized), and the outcome — `ok` a returned result, `error` a
propagated store fault. -/
structure EntityUpdateOut where
  graph : GraphStore
  entUpserts : List (List (String × EntPayload))
  finalized : List (List StoreId)
  outcome : Except Unit UpdateResult
deriving DecidableEq, Repr

/-- `update_entity(rag, entity_name, entity_data)`. The name is used
verbatim (the `formatted_entity_name` normalization line is commented out
in the source). `entVdbFault` injects a store-level fault at the
`entities_vdb.upsert` call, after the graph node write. -/
def update_entity (g : GraphStore) (entity_name : String) (entity_data : Dict)
    (entVdbFault : Bool) : EntityUpdateOut :=
  if !(hasNode g entity_name) then
    { graph := g
      entUpserts := []
      finalized := []
      outcome := Except.ok
        { status := "failed"
          message := "实体 \x27" ++ entity_name ++ "\x27 不存在"
          updated_data := none } }
  else
    let current_node_data := (getNode g entity_name).getD []
    let updated_node_data := dictMerge current_node_data entity_data
    let g' := upsertNode g entity_name updated_node_data
    let entity_id := compute_mdhash_id entity_name "ent-"
    let entity_content := entity_name ++ dictGetD updated_node_data "description" ""
    let upsertCall : List (String × EntPayload) :=
      [(entity_id, { content := entity_content, entity_name := entity_name })]
    if entVdbFault then
      -- upsert raised: update_storage is still False, so the except
      -- branch skips _insert_done and re-raises.
      { graph := g'
        entUpserts := [upsertCall]
        finalized := []
        outcome := Except.error () }
    else
      { graph := g'
        entUpserts := [upsertCall]
        finalized := [insertDoneStores]
        outcome := Except.ok
          { status := "success"
            message := "实体 \x27" ++ entity_name ++ "\x27 已成功更新"
            updated_data := some updated_node_data } }

/-- Everything observable about one `update_relation` call. -/
structure RelationUpdateOut where
  graph : GraphStore
  relUpserts : List (List (String × RelPayload))
  finalized : List (List StoreId)
  result : UpdateResult
deriving DecidableEq, Repr

/-- `update_relation(rag, src_entity, tgt_entity, relation_data)`: both
endpoint names are normalized; preconditions are checked in order
(source node, target node, edge), each unmet one returning a distinct
failed result; on success the merged edge (with `source_id` preserved
from the current edge when the update omits it) is written back and the
relation vector record re-upserted. -/
def update_relation (g : GraphStore) (src_entity tgt_entity : String)
    (relation_data : Dict) : RelationUpdateOut :=
  let fsrc := normalizeName src_entity
  let ftgt := normalizeName tgt_entity
  if !(hasNode g fsrc) then
    { graph := g, relUpserts := [], finalized := []
      result :=
        { status := "failed"
          message := "源实体 \x27" ++ src_entity ++ "\x27 不存在"
          updated_data := none } }
  else if !(hasNode g ftgt) then
    { graph := g, relUpserts := [], finalized := []
      result :=
        { status := "failed"
          message := "目标实体 \x27" ++ tgt_entity ++ "\x27 不存在"
          updated_data := none } }
  else if !(hasEdge g fsrc ftgt) then
    { graph := g, relUpserts := [], finalized := []
      result :=
        { status := "failed"
          message := "从 \x27" ++ src_entity ++ "\x27 到 \x27" ++ tgt_entity
            ++ "\x27 的关系不存在"
          updated_data := none } }
  else
    let current_edge_data := (getEdge g fsrc ftgt).getD []
    let merged := dictMerge current_edge_data relation_data
    let updated_edge_data :=
      match assocGet current_edge_data "source_id", assocGet relation_data "source_id" with
      | some v, none => assocUpsert merged "source_id" v
      | _, _ => merged
    let g' := upsertEdge g fsrc ftgt updated_edge_data
    let rel_id := compute_mdhash_id (fsrc ++ ftgt) "rel-"
    let keywords := dictGetD updated_edge_data "keywords" ""
    let description := dictGetD updated_edge_data "description" ""
    { graph := g'
      relUpserts := [[(rel_id,
        { src_id := fsrc, tgt_id := ftgt
          content := keywords ++ fsrc ++ ftgt ++ description })]]
      finalized := [insertDoneStores]
      result :=
        { status := "success"
          message := "从 \x27" ++ src_entity ++ "\x27 到 \x27" ++ tgt_entity
            ++ "\x27 的关系已成功更新"
          updated_data := some updated_edge_data } }

/-- One element of `relations_data`: the required fields `src_id`,
`tgt_id`, `description`, `keywords` plus the optional `weight` and
`source_id` (absent = Python `.get` falls back to the default). -/
structure RelationInput where
  src_id : String
  tgt_id : String
  description : String
  keywords : String
  weight : Option Val
  source_id : Option String
deriving DecidableEq, Repr

/-- An entry of the `added` list: the normalized endpoint pair. -/
structure AddedRel where
  src_id : String
  tgt_id : String
deriving DecidableEq, Repr

/-- An entry of the `skipped` list: the normalized endpoint pair and the
reason naming the missing side. -/
structure SkippedRel where
  src_id : String
  tgt_id : String
  reason : String
deriving DecidableEq, Repr

/-- An element of `all_relationships_data`, staged for the single batched
vector upsert after the loop. -/
structure StagedRel where
  src_id : String
  tgt_id : String
  description : String
  keywords : String
deriving DecidableEq, Repr

/-- The loop state of `insert_custom_relations`. -/
structure InsertState where
  graph : GraphStore
  staged : List StagedRel
  added : List AddedRel
  skipped : List SkippedRel
  update_storage : Bool
deriving DecidableEq, Repr

/-- The loop body of `insert_custom_relations` for one relation item:
normalize both endpoints, check both exist, either record a skip (reason
naming the source side when it is the missing one, else the target side)
or upsert the edge and stage the vector record. -/
def insertStep (st : InsertState) (r : RelationInput) : InsertState :=
  let src_id := normalizeName r.src_id
  let tgt_id := normalizeName r.tgt_id
  let weight := r.weight.getD (Val.num "1.0")
  let source_id := r.source_id.getD "CUSTOM_RELATION"
  let src_exists := hasNode st.graph src_id
  let tgt_exists := hasNode st.graph tgt_id
  if !src_exists || !tgt_exists then
    { st with skipped := st.skipped ++
        [{ src_id := src_id, tgt_id := tgt_id
           reason := (if !src_exists then "源" else "目标") ++ "实体不存在" }] }
  else
    { graph := upsertEdge st.graph src_id tgt_id
        [("weight", weight), ("description", Val.s r.description),
         ("keywords", Val.s r.keywords), ("source_id", Val.s source_id)]
      staged := st.staged ++
        [{ src_id := src_id, tgt_id := tgt_id
           description := r.description, keywords := r.keywords }]
      added := st.added ++ [{ src_id := src_id, tgt_id := tgt_id }]
      skipped := st.skipped
      update_storage := true }

/-- The result dict of `insert_custom_relations`. -/
structure InsertResult where
  added : List AddedRel
  skipped : List SkippedRel
  total_added : Nat
  total_skipped : Nat
deriving DecidableEq, Repr

/-- Everything observable about one `insert_custom_relations` call. -/
structure InsertOut where
  graph : GraphStore
  relUpserts : List (List (String × RelPayload))
  finalized : List (List StoreId)
  result : InsertResult
deriving DecidableEq, Repr

/-- The `data_for_vdb` dict comprehension: keys may collide (same
normalized endpoint pair staged twice), in which case the later item
overwrites the value at the key's first position, as a Python dict does. -/
def dictOfPairs (l : List (String × RelPayload)) : List (String × RelPayload) :=
  l.foldl (fun acc kv => assocUpsert acc kv.1 kv.2) []

/-- The vector record staged for one added relation. -/
def stagedPair (dp : StagedRel) : String × RelPayload :=
  (compute_mdhash_id (dp.src_id ++ dp.tgt_id) "rel-",
   { src_id := dp.src_id, tgt_id := dp.tgt_id
     content := dp.keywords ++ dp.src_id ++ dp.tgt_id ++ dp.description })

/-- `insert_custom_relations(rag, relations_data)`: fold the loop body
over the items, then (if anything was staged) one batched vector upsert,
then (if anything was written) one `_insert_done`. -/
def insert_custom_relations (g : GraphStore) (relations_data : List RelationInput) :
    InsertOut :=
  let st := relations_data.foldl insertStep
    { graph := g, staged := [], added := [], skipped := [], update_storage := false }
  { graph := st.graph
    relUpserts :=
      if st.staged.isEmpty then []
      else [dictOfPairs (st.staged.map stagedPair)]
    finalized := if st.update_storage then [insertDoneStores] else []
    result :=
      { added := st.added, skipped := st.skipped
        total_added := st.added.length, total_skipped := st.skipped.length } }

theorem assocGet_assocUpsert_self {α β : Type} [DecidableEq α]
    (l : List (α × β)) (k : α) (v : β) :
    assocGet (assocUpsert l k v) k = some v := by
  induction l with
  | nil => simp [assocUpsert, assocGet]
  | cons hd tl ih =>
    by_cases h : hd.1 = k
    · obtain ⟨k', v'⟩ := hd
      simp only at h
      simp [assocUpsert, assocGet, h]
    · obtain ⟨k', v'⟩ := hd
      simp only at h
      simp [assocUpsert, assocGet, h, ih]

theorem assocGet_assocUpsert_ne {α β : Type} [DecidableEq α]
    (l : List (α × β)) (k k' : α) (v : β) (h : k' ≠ k) :
    assocGet (assocUpsert l k v) k' = assocGet l k' := by
  induction l with
  | nil => simp [assocUpsert, assocGet, Ne.symm h]
  | cons hd tl ih =>
    obtain ⟨k0, v0⟩ := hd
    by_cases h0 : k0 = k
    · subst h0
      simp [assocUpsert, assocGet, Ne.symm h]
    · simp [assocUpsert, assocGet, h0, ih]

theorem dictMerge_nil (a : Dict) : dictMerge a [] = a := rfl

theorem dictMerge_cons (a : Dict) (kv : String × Val) (b : Dict) :
    dictMerge a (kv :: b) = dictMerge (assocUpsert a kv.1 kv.2) b := rfl

theorem assocGet_dictMerge_of_none (a b : Dict) (k : String)
    (h : assocGet b k = none) :
    assocGet (dictMerge a b) k = assocGet a k := by
  induction b generalizing a with
  | nil => rfl
  | cons hd tl ih =>
    obtain ⟨k0, v0⟩ := hd
    have hne : k0 ≠ k := by
      intro hk
      simp [assocGet, hk] at h
    have htl : assocGet tl k = none := by
      simpa [assocGet, hne] using h
    rw [dictMerge_cons, ih _ htl, assocGet_assocUpsert_ne _ _ _ _ fun hh => hne hh.symm]

theorem assocGet_dictMerge_of_some (a b : Dict) (k : String) (v : Val)
    (hb : isDict b) (h : assocGet b k = some v) :
    assocGet (dictMerge a b) k = some v := by
  induction b generalizing a with
  | nil => simp [assocGet] at h
  | cons hd tl ih =>
    obtain ⟨k0, v0⟩ := hd
    rw [dictMerge_cons]
    by_cases hk : k0 = k
    · subst hk
      have hv : v0 = v := by simpa [assocGet] using h
      subst hv
      have htl : assocGet tl k0 = none := by
        unfold isDict at hb
        simp only [List.map_cons, List.nodup_cons] at hb
        rcases assocGet tl k0 |>.eq_none_or_eq_some with hn | ⟨w, hw⟩
        · exact hn
        · exfalso
          apply hb.1
          clear hb ih h
          induction tl with
          | nil => simp [assocGet] at hw
          | cons hd2 tl2 ih2 =>
            obtain ⟨k2, v2⟩ := hd2
            by_cases h2 : k2 = k0
            · subst h2; simp
            · simp only [assocGet, if_neg h2] at hw
              simp [ih2 hw]
      rw [assocGet_dictMerge_of_none _ _ _ htl, assocGet_assocUpsert_self]
    · have hb' : isDict tl := by
        unfold isDict at hb ⊢
        simp only [List.map_cons, List.nodup_cons] at hb
        exact hb.2
      have htl : assocGet tl k = some v := by
        simpa [assocGet, hk] using h
      exact ih _ hb' htl

/-- The per-item success condition of the insertion loop: both normalized
endpoints exist as nodes (node set taken from `g`). -/
def endpointsOk (g : GraphStore) (r : RelationInput) : Bool :=
  hasNode g (normalizeName r.src_id) && hasNode g (normalizeName r.tgt_id)

/-- The `added` entry produced for a successful item. -/
def addedEntry (r : RelationInput) : AddedRel :=
  { src_id := normalizeName r.src_id, tgt_id := normalizeName r.tgt_id }

/-- The staged vector-record data produced for a successful item. -/
def stagedEntry (r : RelationInput) : StagedRel :=
  { src_id := normalizeName r.src_id, tgt_id := normalizeName r.tgt_id
    description := r.description, keywords := r.keywords }

/-- The `skipped` entry produced for an item with a missing endpoint. -/
def skipEntry (g : GraphStore) (r : RelationInput) : SkippedRel :=
  { src_id := normalizeName r.src_id, tgt_id := normalizeName r.tgt_id
    reason := (if !(hasNode g (normalizeName r.src_id)) then "源" else "目标")
      ++ "实体不存在" }

/-- The graph-store effect of one loop iteration, in isolation. -/
def graphStep (gr : GraphStore) (r : RelationInput) : GraphStore :=
  let src_id := normalizeName r.src_id
  let tgt_id := normalizeName r.tgt_id
  if hasNode gr src_id && hasNode gr tgt_id then
    upsertEdge gr src_id tgt_id
      [("weight", r.weight.getD (Val.num "1.0")), ("description", Val.s r.description),
       ("keywords", Val.s r.keywords), ("source_id", Val.s (r.source_id.getD "CUSTOM_RELATION"))]
  else gr

theorem hasNode_eq_nodes {g g' : GraphStore} (h : g.nodes = g'.nodes) (k : String) :
    hasNode g k = hasNode g' k := by
  unfold hasNode
  rw [h]

theorem insertStep_graph (st : InsertState) (r : RelationInput) :
    (insertStep st r).graph = graphStep st.graph r := by
  unfold insertStep graphStep
  by_cases h1 : hasNode st.graph (normalizeName r.src_id) <;>
    by_cases h2 : hasNode st.graph (normalizeName r.tgt_id) <;>
      simp [h1, h2]

theorem upsertEdge_nodes (g : GraphStore) (src tgt : String) (d : Dict) :
    (upsertEdge g src tgt d).nodes = g.nodes := rfl

theorem graphStep_nodes (gr : GraphStore) (r : RelationInput) :
    (graphStep gr r).nodes = gr.nodes := by
  unfold graphStep
  by_cases h : hasNode gr (normalizeName r.src_id) && hasNode gr (normalizeName r.tgt_id) <;>
    simp [h, upsertEdge_nodes]

theorem insertStep_nodes (st : InsertState) (r : RelationInput) :
    (insertStep st r).graph.nodes = st.graph.nodes := by
  rw [insertStep_graph, graphStep_nodes]

theorem insertStep_of_ok {g0 : GraphStore} (st : InsertState) (r : RelationInput)
    (hst : st.graph.nodes = g0.nodes) (h : endpointsOk g0 r = true) :
    insertStep st r =
      { graph := graphStep st.graph r
        staged := st.staged ++ [stagedEntry r]
        added := st.added ++ [addedEntry r]
        skipped := st.skipped
        update_storage := true } := by
  unfold endpointsOk at h
  rw [Bool.and_eq_true] at h
  have h1 : hasNode st.graph (normalizeName r.src_id) = true := by
    rw [hasNode_eq_nodes hst]; exact h.1
  have h2 : hasNode st.graph (normalizeName r.tgt_id) = true := by
    rw [hasNode_eq_nodes hst]; exact h.2
  unfold insertStep graphStep stagedEntry addedEntry
  simp [h1, h2]

theorem insertStep_of_not_ok {g0 : GraphStore} (st : InsertState) (r : RelationInput)
    (hst : st.graph.nodes = g0.nodes) (h : endpointsOk g0 r = false) :
    insertStep st r = { st with skipped := st.skipped ++ [skipEntry g0 r] } := by
  unfold endpointsOk at h
  have hor : hasNode g0 (normalizeName r.src_id) = false ∨
      hasNode g0 (normalizeName r.tgt_id) = false := by
    rcases Bool.eq_false_iff.mp h with _
    by_cases hs : hasNode g0 (normalizeName r.src_id)
    · right
      by_cases ht : hasNode g0 (normalizeName r.tgt_id)
      · exfalso; rw [hs, ht] at h; simp at h
      · exact Bool.eq_false_iff.mpr ht
    · left; exact Bool.eq_false_iff.mpr hs
  have h1 : hasNode st.graph (normalizeName r.src_id) = hasNode g0 (normalizeName r.src_id) :=
    hasNode_eq_nodes hst _
  have h2 : hasNode st.graph (normalizeName r.tgt_id) = hasNode g0 (normalizeName r.tgt_id) :=
    hasNode_eq_nodes hst _
  unfold insertStep skipEntry
  rcases hor with hf | hf
  · simp [h1, h2, hf]
  · by_cases hs : hasNode g0 (normalizeName r.src_id)
    · simp [h1, h2, hf, hs]
    · simp [h1, h2, hf, Bool.eq_false_iff.mpr hs]

theorem graphStep_of_not_ok {g0 : GraphStore} (gr : GraphStore) (r : RelationInput)
    (hst : gr.nodes = g0.nodes) (h : endpointsOk g0 r = false) :
    graphStep gr r = gr := by
  unfold endpointsOk at h
  unfold graphStep
  have h1 := hasNode_eq_nodes hst (normalizeName r.src_id)
  have h2 := hasNode_eq_nodes hst (normalizeName r.tgt_id)
  simp only [h1, h2, h]
  simp [h]

/-- Closed form of the insertion loop: relative to the initial node set
(which the loop never changes), the items are partitioned by
`endpointsOk`; successes append to `added`/`staged` and set the storage
flag, failures append to `skipped`; the graph evolves by `graphStep`. -/
theorem foldl_insertStep_eq (g0 : GraphStore) (l : List RelationInput)
    (st : InsertState) (hst : st.graph.nodes = g0.nodes) :
    l.foldl insertStep st =
      { graph := l.foldl graphStep st.graph
        staged := st.staged ++ (l.filter (endpointsOk g0)).map stagedEntry
        added := st.added ++ (l.filter (endpointsOk g0)).map addedEntry
        skipped := st.skipped ++
          (l.filter (fun r => !(endpointsOk g0 r))).map (skipEntry g0)
        update_storage :=
          st.update_storage || !((l.filter (endpointsOk g0)).isEmpty) } := by
  induction l generalizing st with
  | nil => simp
  | cons r tl ih =>
    have hst' : (insertStep st r).graph.nodes = g0.nodes := by
      rw [insertStep_nodes]; exact hst
    by_cases hok : endpointsOk g0 r
    · rw [List.foldl_cons, ih _ hst', insertStep_of_ok st r hst hok]
      simp [hok, List.filter_cons]
    · have hok' : endpointsOk g0 r = false := Bool.eq_false_iff.mpr hok
      rw [List.foldl_cons, ih _ hst', insertStep_of_not_ok st r hst hok']
      have hgr : graphStep st.graph r = st.graph := graphStep_of_not_ok st.graph r hst hok'
      simp [hok', List.filter_cons, hgr]

theorem foldl_graphStep_nodes (g0 : GraphStore) (l : List RelationInput) :
    (l.foldl graphStep g0).nodes = g0.nodes := by
  induction l generalizing g0 with
  | nil => rfl
  | cons r tl ih => rw [List.foldl_cons, ih, graphStep_nodes]

/-- Closed form of a whole `insert_custom_relations` call. -/
theorem insert_custom_relations_eq (g : GraphStore) (l : List RelationInput) :
    insert_custom_relations g l =
      { graph := l.foldl graphStep g
        relUpserts :=
          if (l.filter (endpointsOk g)).isEmpty then []
          else [dictOfPairs (((l.filter (endpointsOk g)).map stagedEntry).map stagedPair)]
        finalized :=
          if (l.filter (endpointsOk g)).isEmpty then [] else [insertDoneStores]
        result :=
          { added := (l.filter (endpointsOk g)).map addedEntry
            skipped := (l.filter (fun r => !(endpointsOk g r))).map (skipEntry g)
            total_added := ((l.filter (endpointsOk g)).map addedEntry).length
            total_skipped :=
              ((l.filter (fun r => !(endpointsOk g r))).map (skipEntry g)).length } } := by
  unfold insert_custom_relations
  rw [foldl_insertStep_eq g l _ rfl]
  by_cases he : (l.filter (endpointsOk g)).isEmpty
  · simp_all [List.isEmpty_iff, List.filter_eq_nil_iff]
  · simp_all [List.isEmpty_iff, List.filter_eq_nil_iff]
    obtain ⟨x, hx, hp⟩ := he
    rw [if_neg]
    intro hall
    have hc := hall x hx
    rw [hp] at hc
    simp at hc

/-- A skipped item (one with a missing endpoint) has no effect on the
graph store: the fold over a list with it equals the fold without it. -/
theorem foldl_graphStep_drop_not_ok (g : GraphStore) (pre suf : List RelationInput)
    (r : RelationInput) (h : endpointsOk g r = false) :
    (pre ++ r :: suf).foldl graphStep g = (pre ++ suf).foldl graphStep g := by
  rw [List.foldl_append, List.foldl_append, List.foldl_cons]
  have hn : (pre.foldl graphStep g).nodes = g.nodes := foldl_graphStep_nodes g pre
  rw [graphStep_of_not_ok _ r hn h]

/-- Edges whose (normalized) pair has a missing endpoint are never
written by the insertion loop. -/
theorem getEdge_foldl_graphStep (g0 gr : GraphStore) (l : List RelationInput)
    (x y : String) (hn : gr.nodes = g0.nodes)
    (hmiss : hasNode g0 x = false ∨ hasNode g0 y = false) :
    getEdge (l.foldl graphStep gr) x y = getEdge gr x y := by
  induction l generalizing gr with
  | nil => rfl
  | cons r tl ih =>
    rw [List.foldl_cons]
    have hn' : (graphStep gr r).nodes = g0.nodes := by rw [graphStep_nodes]; exact hn
    rw [ih _ hn']
    unfold graphStep
    by_cases hok : hasNode gr (normalizeName r.src_id) && hasNode gr (normalizeName r.tgt_id)
    · simp only [hok, if_true]
      unfold getEdge upsertEdge
      simp only
      apply assocGet_assocUpsert_ne
      intro hpair
      rw [Bool.and_eq_true] at hok
      have hx : hasNode g0 (normalizeName r.src_id) = true := by
        rw [← hasNode_eq_nodes hn]; exact hok.1
      have hy : hasNode g0 (normalizeName r.tgt_id) = true := by
        rw [← hasNode_eq_nodes hn]; exact hok.2
      have hx' : x = normalizeName r.src_id := congrArg Prod.fst hpair
      have hy' : y = normalizeName r.tgt_id := congrArg Prod.snd hpair
      rcases hmiss with hm | hm
      · rw [hx', hx] at hm; simp at hm
      · rw [hy', hy] at hm; simp at hm
    · simp [hok]

/-- The merged node attributes written back by a successful entity
update. -/
def entityMerged (g : GraphStore) (entity_name : String) (entity_data : Dict) : Dict :=
  dictMerge ((getNode g entity_name).getD []) entity_data

theorem update_entity_not_found (g : GraphStore) (n : String) (d : Dict) (fb : Bool)
    (h : hasNode g n = false) :
    update_entity g n d fb =
      { graph := g, entUpserts := [], finalized := []
        outcome := Except.ok
          { status := "failed"
            message := "实体 \x27" ++ n ++ "\x27 不存在"
            updated_data := none } } := by
  unfold update_entity
  simp [h]

theorem update_entity_found (g : GraphStore) (n : String) (d : Dict) (fb : Bool)
    (h : hasNode g n = true) :
    update_entity g n d fb =
      { graph := upsertNode g n (entityMerged g n d)
        entUpserts := [[(compute_mdhash_id n "ent-",
          { content := n ++ dictGetD (entityMerged g n d) "description" ""
            entity_name := n })]]
        finalized := if fb then [] else [insertDoneStores]
        outcome :=
          if fb then Except.error () else Except.ok
            { status := "success"
              message := "实体 \x27" ++ n ++ "\x27 已成功更新"
              updated_data := some (entityMerged g n d) } } := by
  unfold update_entity entityMerged
  cases fb <;> simp [h]

/-- The merged edge attributes written back by a successful relation
update: shallow overlay, then the `source_id` restoration. -/
def relationMerged (g : GraphStore) (src_entity tgt_entity : String)
    (relation_data : Dict) : Dict :=
  let fsrc := normalizeName src_entity
  let ftgt := normalizeName tgt_entity
  let current_edge_data := (getEdge g fsrc ftgt).getD []
  let merged := dictMerge current_edge_data relation_data
  match assocGet current_edge_data "source_id", assocGet relation_data "source_id" with
  | some v, none => assocUpsert merged "source_id" v
  | _, _ => merged

theorem update_relation_no_src (g : GraphStore) (src tgt : String) (d : Dict)
    (h : hasNode g (normalizeName src) = false) :
    update_relation g src tgt d =
      { graph := g, relUpserts := [], finalized := []
        result :=
          { status := "failed"
            message := "源实体 \x27" ++ src ++ "\x27 不存在"
            updated_data := none } } := by
  unfold update_relation
  simp [h]

theorem update_relation_no_tgt (g : GraphStore) (src tgt : String) (d : Dict)
    (hs : hasNode g (normalizeName src) = true)
    (h : hasNode g (normalizeName tgt) = false) :
    update_relation g src tgt d =
      { graph := g, relUpserts := [], finalized := []
        result :=
          { status := "failed"
            message := "目标实体 \x27" ++ tgt ++ "\x27 不存在"
            updated_data := none } } := by
  unfold update_relation
  simp [hs, h]

theorem update_relation_no_edge (g : GraphStore) (src tgt : String) (d : Dict)
    (hs : hasNode g (normalizeName src) = true)
    (ht : hasNode g (normalizeName tgt) = true)
    (h : hasEdge g (normalizeName src) (normalizeName tgt) = false) :
    update_relation g src tgt d =
      { graph := g, relUpserts := [], finalized := []
        result :=
          { status := "failed"
            message := "从 \x27" ++ src ++ "\x27 到 \x27" ++ tgt
              ++ "\x27 的关系不存在"
            updated_data := none } } := by
  unfold update_relation
  simp [hs, ht, h]

theorem update_relation_found (g : GraphStore) (src tgt : String) (d : Dict)
    (hs : hasNode g (normalizeName src) = true)
    (ht : hasNode g (normalizeName tgt) = true)
    (he : hasEdge g (normalizeName src) (normalizeName tgt) = true) :
    update_relation g src tgt d =
      { graph := upsertEdge g (normalizeName src) (normalizeName tgt)
          (relationMerged g src tgt d)
        relUpserts := [[(compute_mdhash_id (normalizeName src ++ normalizeName tgt) "rel-",
          { src_id := normalizeName src, tgt_id := normalizeName tgt
            content := dictGetD (relationMerged g src tgt d) "keywords" ""
              ++ normalizeName src ++ normalizeName tgt
              ++ dictGetD (relationMerged g src tgt d) "description" "" })]]
        finalized := [insertDoneStores]
        result :=
          { status := "success"
            message := "从 \x27" ++ src ++ "\x27 到 \x27" ++ tgt
              ++ "\x27 的关系已成功更新"
            updated_data := some (relationMerged g src tgt d) } } := by
  unfold update_relation relationMerged
  simp [hs, ht, he]

theorem hasNode_upsertNode_self (g : GraphStore) (n : String) (d : Dict) :
    hasNode (upsertNode g n d) n = true := by
  unfold hasNode upsertNode
  simp [assocGet_assocUpsert_self]

theorem getNode_upsertNode_self (g : GraphStore) (n : String) (d : Dict) :
    getNode (upsertNode g n d) n = some d := by
  unfold getNode upsertNode
  simp [assocGet_assocUpsert_self]

theorem getEdge_upsertEdge_self (g : GraphStore) (src tgt : String) (d : Dict) :
    getEdge (upsertEdge g src tgt d) src tgt = some d := by
  unfold getEdge upsertEdge
  simp [assocGet_assocUpsert_self]

/-- Test graph for witnesses: two entities A and B (normalized keys) and
an edge A→B whose attributes carry a `source_id`. -/
def gAB : GraphStore :=
  { nodes := [("\"A\"", []), ("\"B\"", [])]
    edges := [(("\"A\"", "\"B\""),
      [("source_id", Val.s "chunk-1"), ("description", Val.s "old"),
       ("keywords", Val.s "kw")])] }

/-- C5: for every successful relation merge-update whose incoming map
omits `source_id`, the merged edge record written back to the graph store
and returned to the caller has the prior edge record's `source_id`. -/
theorem relation_update_preserves_source_id
    (g : GraphStore) (src tgt : String) (d : Dict)
    (hs : hasNode g (normalizeName src) = true)
    (ht : hasNode g (normalizeName tgt) = true)
    (he : hasEdge g (normalizeName src) (normalizeName tgt) = true)
    (homit : assocGet d "source_id" = none) :
    (update_relation g src tgt d).result.status = "success" ∧
    (update_relation g src tgt d).result.updated_data
      = some (relationMerged g src tgt d) ∧
    getEdge (update_relation g src tgt d).graph (normalizeName src) (normalizeName tgt)
      = some (relationMerged g src tgt d) ∧
    assocGet (relationMerged g src tgt d) "source_id"
      = assocGet ((getEdge g (normalizeName src) (normalizeName tgt)).getD [])
          "source_id" := by
  rw [update_relation_found g src tgt d hs ht he]
  refine ⟨rfl, rfl, getEdge_upsertEdge_self _ _ _ _, ?_⟩
  unfold relationMerged
  rcases hcur : assocGet ((getEdge g (normalizeName src) (normalizeName tgt)).getD [])
      "source_id" with _ | v
  · simp only [hcur, homit]
    exact assocGet_dictMerge_of_none _ _ _ homit |>.trans hcur
  · simp only [hcur, homit]
    exact assocGet_assocUpsert_self _ _ _

theorem relation_update_preserves_source_id_witness :
    hasNode gAB (normalizeName "A") = true ∧
    hasEdge gAB (normalizeName "A") (normalizeName "B") = true ∧
    assocGet [("description", Val.s "new")] "source_id" = none ∧
    assocGet (relationMerged gAB "A" "B" [("description", Val.s "new")]) "source_id"
      = some (Val.s "chunk-1") :=
  ⟨by decide, by decide, by decide,
    by
      have h := relation_update_preserves_source_id gAB "A" "B"
        [("description", Val.s "new")] (by decide) (by decide) (by decide) (by decide)
      rw [h.2.2.2]
      decide⟩

/-- C7: for every existing entity merge-updated twice in sequence with
attribute maps whose key sets are disjoint, the final stored node record
is the union: every key of either update is bound to the value that
update supplied, and every key mentioned by neither retains its prior
value (shallow overlay, incoming keys win). -/
theorem entity_double_update_disjoint_union
    (g : GraphStore) (n : String) (d1 d2 : Dict)
    (hn : hasNode g n = true)
    (h1 : isDict d1) (h2 : isDict d2)
    (hdisj : ∀ k, assocGet d1 k = none ∨ assocGet d2 k = none) :
    (update_entity g n d1 false).outcome.isOk = true ∧
    (update_entity (update_entity g n d1 false).graph n d2 false).outcome.isOk = true ∧
    getNode (update_entity (update_entity g n d1 false).graph n d2 false).graph n
      = some (dictMerge (dictMerge ((getNode g n).getD []) d1) d2) ∧
    (∀ k v, assocGet d2 k = some v →
      assocGet (dictMerge (dictMerge ((getNode g n).getD []) d1) d2) k = some v) ∧
    (∀ k v, assocGet d1 k = some v →
      assocGet (dictMerge (dictMerge ((getNode g n).getD []) d1) d2) k = some v) ∧
    (∀ k, assocGet d1 k = none → assocGet d2 k = none →
      assocGet (dictMerge (dictMerge ((getNode g n).getD []) d1) d2) k
        = assocGet ((getNode g n).getD []) k) := by
  have e1 := update_entity_found g n d1 false hn
  have hn1 : hasNode (update_entity g n d1 false).graph n = true := by
    rw [e1]; exact hasNode_upsertNode_self _ _ _
  have e2 := update_entity_found (update_entity g n d1 false).graph n d2 false hn1
  have hget1 : getNode (update_entity g n d1 false).graph n = some (entityMerged g n d1) := by
    rw [e1]; exact getNode_upsertNode_self _ _ _
  refine ⟨?_, ?_, ?_, ?_, ?_, ?_⟩
  · rw [e1]; rfl
  · rw [e2]; rfl
  · rw [e2]
    simp only
    rw [getNode_upsertNode_self]
    unfold entityMerged
    rw [hget1]
    rfl
  · intro k v hv
    exact assocGet_dictMerge_of_some _ _ _ _ h2 hv
  · intro k v hv
    have hd2 : assocGet d2 k = none := by
      rcases hdisj k with h | h
      · rw [h] at hv; exact absurd hv (by simp)
      · exact h
    rw [assocGet_dictMerge_of_none _ _ _ hd2]
    exact assocGet_dictMerge_of_some _ _ _ _ h1 hv
  · intro k hk1 hk2
    rw [assocGet_dictMerge_of_none _ _ _ hk2, assocGet_dictMerge_of_none _ _ _ hk1]

/-- Test graph for witnesses: a single entity `E` (raw name key) with a
description and a provenance reference. -/
def gE : GraphStore :=
  { nodes := [("E", [("description", Val.s "a"), ("source_id", Val.s "c1")])]
    edges := [] }

theorem entity_double_update_disjoint_union_witness :
    hasNode gE "E" = true ∧
    isDict [("entity_type", Val.s "CITY")] ∧
    isDict [("description", Val.s "b")] ∧
    getNode (update_entity
        (update_entity gE "E" [("entity_type", Val.s "CITY")] false).graph
        "E" [("description", Val.s "b")] false).graph "E"
      = some [("description", Val.s "b"), ("source_id", Val.s "c1"),
              ("entity_type", Val.s "CITY")] := by
  refine ⟨by decide, by decide, by decide, ?_⟩
  have h := entity_double_update_disjoint_union gE "E"
    [("entity_type", Val.s "CITY")] [("description", Val.s "b")]
    (by decide) (by decide) (by decide)
    (by
      intro k
      by_cases hk : k = "entity_type"
      · right; rw [hk]; decide
      · left
        simp [assocGet, Ne.symm hk])
  rw [h.2.2.1]
  decide

/-- C9: relation merge-update checks its three preconditions in order —
source node, target node, edge — each unmet one yielding a distinct
failed result (returned, not thrown) that names the missing thing, and a
failed precondition leaves the graph untouched and makes no vector
upsert and no finalize call. -/
theorem relation_update_precondition_order
    (g : GraphStore) (src tgt : String) (d : Dict) :
    (hasNode g (normalizeName src) = false →
      update_relation g src tgt d =
        { graph := g, relUpserts := [], finalized := []
          result :=
            { status := "failed"
              message := "源实体 \x27" ++ src ++ "\x27 不存在"
              updated_data := none } }) ∧
    (hasNode g (normalizeName src) = true →
      hasNode g (normalizeName tgt) = false →
      update_relation g src tgt d =
        { graph := g, relUpserts := [], finalized := []
          result :=
            { status := "failed"
              message := "目标实体 \x27" ++ tgt ++ "\x27 不存在"
              updated_data := none } }) ∧
    (hasNode g (normalizeName src) = true →
      hasNode g (normalizeName tgt) = true →
      hasEdge g (normalizeName src) (normalizeName tgt) = false →
      update_relation g src tgt d =
        { graph := g, relUpserts := [], finalized := []
          result :=
            { status := "failed"
              message := "从 \x27" ++ src ++ "\x27 到 \x27" ++ tgt
                ++ "\x27 的关系不存在"
              updated_data := none } }) :=
  ⟨fun h => update_relation_no_src g src tgt d h,
   fun hs h => update_relation_no_tgt g src tgt d hs h,
   fun hs ht h => update_relation_no_edge g src tgt d hs ht h⟩

theorem relation_update_precondition_order_witness :
    (update_relation gAB "C" "A" []).result.status = "failed" ∧
    (update_relation gAB "C" "A" []).result.message
      = "源实体 \x27C\x27 不存在" ∧
    (update_relation gAB "A" "C" []).result.message
      = "目标实体 \x27C\x27 不存在" ∧
    (update_relation gAB "B" "A" []).result.message
      = "从 \x27B\x27 到 \x27A\x27 的关系不存在" ∧
    (update_relation gAB "A" "C" []).graph = gAB ∧
    (update_relation gAB "A" "C" []).relUpserts = [] ∧
    (update_relation gAB "A" "C" []).finalized = [] := by
  have h1 := (relation_update_precondition_order gAB "C" "A" []).1 (by decide)
  have h2 := (relation_update_precondition_order gAB "A" "C" []).2.1 (by decide) (by decide)
  have h3 := (relation_update_precondition_order gAB "B" "A" []).2.2
    (by decide) (by decide) (by decide)
  rw [h1, h2, h3]
  exact ⟨rfl, rfl, rfl, rfl, rfl, rfl, rfl⟩

/-- C2 counterexample: entity `E` exists; the graph node write completes
(the stored node now carries the new `entity_type`), the vector upsert
then raises, and the operation propagates the error WITHOUT any finalize
call — `update_storage` is still false at that point, so the except
branch skips `_insert_done`. -/
theorem entity_update_fault_skips_finalize_counterexample :
    (update_entity gE "E" [("entity_type", Val.s "T")] true).outcome
      = Except.error () ∧
    getNode (update_entity gE "E" [("entity_type", Val.s "T")] true).graph "E"
      = some [("description", Val.s "a"), ("source_id", Val.s "c1"),
              ("entity_type", Val.s "T")] ∧
    (update_entity gE "E" [("entity_type", Val.s "T")] true).finalized = [] := by
  refine ⟨?_, ?_, ?_⟩ <;> decide

/-- C2 amended: for every entity merge-update in which the graph node
write has completed and the vector-index upsert then raises a store
fault, the error propagates to the caller with NO finalize call on any
store — the storage flag is only set after the vector upsert succeeds,
so the finalize-on-error branch never fires for this operation. -/
theorem entity_update_fault_skips_finalize
    (g : GraphStore) (n : String) (d : Dict) (h : hasNode g n = true) :
    (update_entity g n d true).outcome = Except.error () ∧
    getNode (update_entity g n d true).graph n = some (entityMerged g n d) ∧
    (update_entity g n d true).finalized = [] := by
  rw [update_entity_found g n d true h]
  exact ⟨rfl, getNode_upsertNode_self _ _ _, rfl⟩

theorem entity_update_fault_skips_finalize_witness :
    hasNode gE "E" = true ∧
    ((update_entity gE "E" [] true).outcome = Except.error () ∧
      getNode (update_entity gE "E" [] true).graph "E" = some (entityMerged gE "E" []) ∧
      (update_entity gE "E" [] true).finalized = []) :=
  ⟨by decide, entity_update_fault_skips_finalize gE "E" [] (by decide)⟩

/-- Test graph for witnesses: one entity stored under the NORMALIZED key
for the name Paris. -/
def gParis : GraphStore :=
  { nodes := [("\"PARIS\"", [("description", Val.s "capital of France")])]
    edges := [] }

/-- C4 counterexample: the graph holds the node under the canonical
normalized key for the name Paris, yet `update_entity` called with the
raw name reports a not-found failure — its existence check used the raw
supplied string, not the normalized form that `update_relation` and
`insert_custom_relations` use (and which does exist). -/
theorem entity_update_raw_name_counterexample :
    normalizeName "Paris" = "\"PARIS\"" ∧
    hasNode gParis (normalizeName "Paris") = true ∧
    (update_entity gParis "Paris" [("entity_type", Val.s "CITY")] false).outcome
      = Except.ok
        { status := "failed"
          message := "实体 \x27Paris\x27 不存在"
          updated_data := none } := by
  refine ⟨?_, ?_, ?_⟩ <;> decide

/-- C4 amended: entity merge-update performs its existence check and all
graph reads/writes (and the vector payload and key) on the RAW supplied
name — the normalization line is commented out in the source — whereas
relation merge-update and batch relation insertion apply the canonical
transform (uppercase, quote-wrap) to every name used against the store. -/
theorem entity_update_uses_raw_name
    (g : GraphStore) (n src tgt : String) (d : Dict) (fb : Bool)
    (l : List RelationInput) :
    (hasNode g n = false → (update_entity g n d fb).outcome = Except.ok
      { status := "failed"
        message := "实体 \x27" ++ n ++ "\x27 不存在"
        updated_data := none }) ∧
    (hasNode g n = true →
      getNode (update_entity g n d fb).graph n = some (entityMerged g n d) ∧
      (update_entity g n d fb).entUpserts
        = [[(compute_mdhash_id n "ent-",
            { content := n ++ dictGetD (entityMerged g n d) "description" ""
              entity_name := n })]]) ∧
    (hasNode g (normalizeName src) = false →
      (update_relation g src tgt d).result.status = "failed") ∧
    ((insert_custom_relations g l).result.added
      = (l.filter (endpointsOk g)).map addedEntry ∧
     (insert_custom_relations g l).result.skipped
      = (l.filter (fun r => !(endpointsOk g r))).map (skipEntry g)) := by
  refine ⟨?_, ?_, ?_, ?_⟩
  · intro h
    rw [update_entity_not_found g n d fb h]
  · intro h
    rw [update_entity_found g n d fb h]
    exact ⟨getNode_upsertNode_self _ _ _, rfl⟩
  · intro h
    rw [update_relation_no_src g src tgt d h]
  · rw [insert_custom_relations_eq]
    exact ⟨rfl, rfl⟩

theorem entity_update_uses_raw_name_witness :
    hasNode gParis "Paris" = false ∧
    hasNode gParis (normalizeName "Paris") = true ∧
    (update_entity gParis "Paris" [] false).outcome = Except.ok
      { status := "failed"
        message := "实体 \x27Paris\x27 不存在"
        updated_data := none } :=
  ⟨by decide, by decide,
    (entity_update_uses_raw_name gParis "Paris" "x" "y" [] false []).1 (by decide)⟩

/-- Relation item a→b used by witnesses (both endpoints exist in `gAB`
after normalization). -/
def rAB : RelationInput :=
  { src_id := "a", tgt_id := "b", description := "d1", keywords := "k1"
    weight := none, source_id := none }

/-- Relation item a→c used by witnesses (endpoint C missing in `gAB`). -/
def rAC : RelationInput :=
  { src_id := "a", tgt_id := "c", description := "d2", keywords := "k2"
    weight := none, source_id := none }

/-- C3 counterexample: a batch relation insertion writes only the graph
store and the relationships vector index, yet its finalize step
(`_insert_done`) runs over the fixed three-store list and hence also
finalizes the entities vector index — a store the operation never
touched. -/
theorem insert_finalizes_untouched_entities_vdb_counterexample :
    (insert_custom_relations gAB [rAB]).result.added
      = [{ src_id := "\"A\"", tgt_id := "\"B\"" }] ∧
    (insert_custom_relations gAB [rAB]).finalized = [insertDoneStores] ∧
    StoreId.entitiesVdb ∈ insertDoneStores := by
  refine ⟨?_, ?_, ?_⟩ <;> decide

/-- C3 amended: every state-changing operation that performed at least
one write ends by one `_insert_done` call, which finalizes the FIXED
three-store set (entities vector index, relationships vector index,
graph store) regardless of which of them the operation wrote — in
particular batch relation insertion does finalize the entity vector
index it never writes; when no write occurred, no finalize happens. -/
theorem finalize_runs_on_fixed_store_set :
    (∀ g l, (insert_custom_relations g l).result.added ≠ [] →
      (insert_custom_relations g l).finalized = [insertDoneStores]) ∧
    (∀ g l, (insert_custom_relations g l).result.added = [] →
      (insert_custom_relations g l).finalized = []) ∧
    (∀ g n d, hasNode g n = true →
      (update_entity g n d false).finalized = [insertDoneStores]) ∧
    (∀ g n d, hasNode g n = false →
      (update_entity g n d false).finalized = []) ∧
    (∀ g src tgt d, hasNode g (normalizeName src) = true →
      hasNode g (normalizeName tgt) = true →
      hasEdge g (normalizeName src) (normalizeName tgt) = true →
      (update_relation g src tgt d).finalized = [insertDoneStores]) := by
  refine ⟨?_, ?_, ?_, ?_, ?_⟩
  · intro g l h
    rw [insert_custom_relations_eq] at h ⊢
    simp only at h
    have hf : (l.filter (endpointsOk g)).isEmpty = false := by
      rcases Bool.eq_false_or_eq_true (l.filter (endpointsOk g)).isEmpty with he | he
      · exfalso
        apply h
        rw [List.isEmpty_iff.mp he]
        rfl
      · exact he
    simp [hf]
  · intro g l h
    rw [insert_custom_relations_eq] at h ⊢
    simp only at h
    have hf : (l.filter (endpointsOk g)).isEmpty = true := by
      rw [List.isEmpty_iff]
      exact List.map_eq_nil_iff.mp h
    simp [hf]
  · intro g n d h
    rw [update_entity_found g n d false h]
    rfl
  · intro g n d h
    rw [update_entity_not_found g n d false h]
  · intro g src tgt d hs ht he
    rw [update_relation_found g src tgt d hs ht he]

theorem finalize_runs_on_fixed_store_set_witness :
    (insert_custom_relations gAB [rAB]).result.added ≠ [] ∧
    (insert_custom_relations gAB [rAB]).finalized = [insertDoneStores] ∧
    (insert_custom_relations gAB [rAC]).result.added = [] ∧
    (insert_custom_relations gAB [rAC]).finalized = [] ∧
    (update_entity gE "E" [] false).finalized = [insertDoneStores] := by
  refine ⟨by decide, ?_, by decide, ?_, ?_⟩
  · exact (finalize_runs_on_fixed_store_set).1 gAB [rAB] (by decide)
  · exact (finalize_runs_on_fixed_store_set).2.1 gAB [rAC] (by decide)
  · exact (finalize_runs_on_fixed_store_set).2.2.1 gE "E" [] (by decide)

/-- The key formula the SPEC claims for entity vector records: the
content hash of name + description. Stated from the spec's words for
comparison with the key the code computes. -/
def entityKeySpec (name description : String) : String :=
  compute_mdhash_id (name ++ description) "ent-"

/-- The key formula the SPEC claims for relation vector records: the
content hash of keywords + src_id + tgt_id + description. Stated from
the spec's words for comparison with the key the code computes. -/
def relationKeySpec (keywords src_id tgt_id description : String) : String :=
  compute_mdhash_id (keywords ++ src_id ++ tgt_id ++ description) "rel-"

theorem mem_assocUpsert {α β : Type} [DecidableEq α]
    (l : List (α × β)) (k : α) (v : β) (kv : α × β)
    (h : kv ∈ assocUpsert l k v) : kv ∈ l ∨ kv = (k, v) := by
  induction l with
  | nil =>
    simp [assocUpsert] at h
    right; exact h
  | cons hd tl ih =>
    obtain ⟨k0, v0⟩ := hd
    by_cases h0 : k0 = k
    · subst h0
      simp [assocUpsert] at h
      rcases h with h | h
      · right; exact h
      · left; simp [h]
    · simp [assocUpsert, h0] at h
      rcases h with h | h
      · left; simp [h]
      · rcases ih h with hh | hh
        · left; simp [hh]
        · right; exact hh

theorem mem_dictOfPairs_aux (l acc : List (String × RelPayload))
    (kv : String × RelPayload)
    (h : kv ∈ l.foldl (fun a p => assocUpsert a p.1 p.2) acc) :
    kv ∈ acc ∨ kv ∈ l := by
  induction l generalizing acc with
  | nil => left; exact h
  | cons hd tl ih =>
    rw [List.foldl_cons] at h
    rcases ih _ h with hh | hh
    · rcases mem_assocUpsert _ _ _ _ hh with ha | ha
      · left; exact ha
      · right
        rw [ha]
        simp
    · right; simp [hh]

theorem mem_dictOfPairs (l : List (String × RelPayload)) (kv : String × RelPayload)
    (h : kv ∈ dictOfPairs l) : kv ∈ l := by
  rcases mem_dictOfPairs_aux l [] kv h with hh | hh
  · simp at hh
  · exact hh

/-- C1 counterexample: entity `E` carries description `a`; a merge-update
setting the description to `b` and a second one setting it to `c` both
upsert the vector record under the SAME key — the key the code computes
hashes the entity name alone, so it does not match the spec's
name+description formula and does not change when the description
changes. -/
theorem vector_key_ignores_description_counterexample :
    (update_entity gE "E" [("description", Val.s "b")] false).entUpserts.map
        (fun call => call.map Prod.fst) = [["ent-E"]] ∧
    (update_entity (update_entity gE "E" [("description", Val.s "b")] false).graph
        "E" [("description", Val.s "c")] false).entUpserts.map
        (fun call => call.map Prod.fst) = [["ent-E"]] ∧
    entityKeySpec "E" "c" ≠ "ent-E" ∧
    (update_relation gAB "A" "B" []).relUpserts.map
        (fun call => call.map Prod.fst) = [["rel-\"A\"\"B\""]] ∧
    relationKeySpec "kw" "\"A\"" "\"B\"" "old" ≠ "rel-\"A\"\"B\"" := by
  refine ⟨?_, ?_, ?_, ?_, ?_⟩ <;> decide

/-- C1 amended: the vector-index key for an entity merge-update is the
`ent-`-prefixed content hash of the entity name ALONE (description not
included), and for relation insertion and merge-update the
`rel-`-prefixed content hash of normalized src_id + tgt_id ALONE
(keywords and description not included); consequently a merge-update
that changes the description re-upserts under the SAME key as before,
never a different one. -/
theorem vector_keys_hash_name_and_endpoints_only :
    (∀ g n d fb, hasNode g n = true →
      (update_entity g n d fb).entUpserts.map (fun call => call.map Prod.fst)
        = [[compute_mdhash_id n "ent-"]]) ∧
    (∀ g src tgt d, hasNode g (normalizeName src) = true →
      hasNode g (normalizeName tgt) = true →
      hasEdge g (normalizeName src) (normalizeName tgt) = true →
      (update_relation g src tgt d).relUpserts.map (fun call => call.map Prod.fst)
        = [[compute_mdhash_id (normalizeName src ++ normalizeName tgt) "rel-"]]) ∧
    (∀ g l call kv, call ∈ (insert_custom_relations g l).relUpserts → kv ∈ call →
      kv.1 = compute_mdhash_id (kv.2.src_id ++ kv.2.tgt_id) "rel-") ∧
    (∀ g n d d' fb fb', hasNode g n = true →
      (update_entity (update_entity g n d fb).graph n d' fb').entUpserts.map
          (fun call => call.map Prod.fst)
        = (update_entity g n d fb).entUpserts.map (fun call => call.map Prod.fst)) := by
  have hent : ∀ g n d fb, hasNode g n = true →
      (update_entity g n d fb).entUpserts.map (fun call => call.map Prod.fst)
        = [[compute_mdhash_id n "ent-"]] := by
    intro g n d fb h
    rw [update_entity_found g n d fb h]
    rfl
  refine ⟨hent, ?_, ?_, ?_⟩
  · intro g src tgt d hs ht he
    rw [update_relation_found g src tgt d hs ht he]
    rfl
  · intro g l call kv hcall hkv
    rw [insert_custom_relations_eq] at hcall
    simp only at hcall
    by_cases hie : (l.filter (endpointsOk g)).isEmpty
    · rw [if_pos hie] at hcall
      simp at hcall
    · rw [if_neg hie] at hcall
      have hc : call = dictOfPairs (((l.filter (endpointsOk g)).map stagedEntry).map
          stagedPair) := by
        simpa using hcall
      rw [hc] at hkv
      have hmem := mem_dictOfPairs _ _ hkv
      rcases List.mem_map.mp hmem with ⟨dp, _, hdp⟩
      rw [← hdp]
      rfl
  · intro g n d d' fb fb' h
    have h2 : hasNode (update_entity g n d fb).graph n = true := by
      rw [update_entity_found g n d fb h]
      exact hasNode_upsertNode_self _ _ _
    rw [hent _ _ _ _ h, hent _ _ _ _ h2]

theorem vector_keys_hash_name_and_endpoints_only_witness :
    hasNode gE "E" = true ∧
    (update_entity gE "E" [("description", Val.s "b")] false).entUpserts.map
        (fun call => call.map Prod.fst) = [[compute_mdhash_id "E" "ent-"]] ∧
    (update_relation gAB "A" "B" []).relUpserts.map (fun call => call.map Prod.fst)
      = [[compute_mdhash_id (normalizeName "A" ++ normalizeName "B") "rel-"]] :=
  ⟨by decide,
   (vector_keys_hash_name_and_endpoints_only).1 gE "E"
     [("description", Val.s "b")] false (by decide),
   (vector_keys_hash_name_and_endpoints_only).2.1 gAB "A" "B" []
     (by decide) (by decide) (by decide)⟩

/-- C8: whenever a batch relation insertion has at least one successful
item, all staged vector records go to the relationships vector index in
exactly one batched upsert call; in the two-item scenario (A→B valid,
A→C with C missing) the result is total_added = 1, total_skipped = 1,
and exactly one vector upsert call carrying exactly one record. -/
theorem staged_records_upserted_in_single_batch :
    (∀ g l, (insert_custom_relations g l).result.added ≠ [] →
      (insert_custom_relations g l).relUpserts.length = 1) ∧
    (insert_custom_relations gAB [rAB, rAC]).result.total_added = 1 ∧
    (insert_custom_relations gAB [rAB, rAC]).result.total_skipped = 1 ∧
    (insert_custom_relations gAB [rAB, rAC]).relUpserts.map List.length = [1] := by
  refine ⟨?_, by decide, by decide, by decide⟩
  intro g l h
  rw [insert_custom_relations_eq] at h ⊢
  simp only at h
  have hf : (l.filter (endpointsOk g)).isEmpty = false := by
    rcases Bool.eq_false_or_eq_true (l.filter (endpointsOk g)).isEmpty with he | he
    · exfalso
      apply h
      rw [List.isEmpty_iff.mp he]
      rfl
    · exact he
  simp [hf]

theorem staged_records_upserted_in_single_batch_witness :
    (insert_custom_relations gAB [rAB]).result.added ≠ [] ∧
    (insert_custom_relations gAB [rAB]).relUpserts.length = 1 :=
  ⟨by decide, (staged_records_upserted_in_single_batch).1 gAB [rAB] (by decide)⟩

/-- C10: a batch relation insertion partitions its items one-to-one into
the added and skipped lists (successes in order, failures in order), the
reported totals are the lengths of those lists and sum to the input
length, and every entry of either list carries the normalized
(uppercased, quote-wrapped) endpoint names of its item. -/
theorem insert_result_partition (g : GraphStore) (l : List RelationInput) :
    (insert_custom_relations g l).result.added
      = (l.filter (endpointsOk g)).map addedEntry ∧
    (insert_custom_relations g l).result.skipped
      = (l.filter (fun r => !(endpointsOk g r))).map (skipEntry g) ∧
    (insert_custom_relations g l).result.total_added
      = (insert_custom_relations g l).result.added.length ∧
    (insert_custom_relations g l).result.total_skipped
      = (insert_custom_relations g l).result.skipped.length ∧
    (insert_custom_relations g l).result.added.length
      + (insert_custom_relations g l).result.skipped.length = l.length ∧
    (∀ a ∈ (insert_custom_relations g l).result.added, ∃ r ∈ l,
      a.src_id = normalizeName r.src_id ∧ a.tgt_id = normalizeName r.tgt_id) ∧
    (∀ s ∈ (insert_custom_relations g l).result.skipped, ∃ r ∈ l,
      s.src_id = normalizeName r.src_id ∧ s.tgt_id = normalizeName r.tgt_id) := by
  rw [insert_custom_relations_eq]
  simp only
  refine ⟨trivial, trivial, trivial, trivial, ?_, ?_, ?_⟩
  · rw [List.length_map, List.length_map]
    exact (List.length_eq_length_filter_add (endpointsOk g)).symm
  · intro a ha
    rcases List.mem_map.mp ha with ⟨r, hr, hra⟩
    exact ⟨r, (List.mem_filter.mp hr).1, by rw [← hra]; exact ⟨rfl, rfl⟩⟩
  · intro s hs
    rcases List.mem_map.mp hs with ⟨r, hr, hrs⟩
    exact ⟨r, (List.mem_filter.mp hr).1, by rw [← hrs]; exact ⟨rfl, rfl⟩⟩

theorem insert_result_partition_witness :
    (insert_custom_relations gAB [rAB, rAC]).result.total_added
        + (insert_custom_relations gAB [rAB, rAC]).result.total_skipped = 2 ∧
    (insert_custom_relations gAB [rAB, rAC]).result.added
      = [{ src_id := "\"A\"", tgt_id := "\"B\"" }] ∧
    (insert_custom_relations gAB [rAB, rAC]).result.skipped
      = [{ src_id := "\"A\"", tgt_id := "\"C\"", reason := "目标实体不存在" }] ∧
    (∃ r ∈ [rAB, rAC],
      ({ src_id := "\"A\"", tgt_id := "\"B\"" } : AddedRel).src_id
          = normalizeName r.src_id ∧
      ({ src_id := "\"A\"", tgt_id := "\"B\"" } : AddedRel).tgt_id
          = normalizeName r.tgt_id) := by
  have h := insert_result_partition gAB [rAB, rAC]
  refine ⟨?_, ?_, ?_, ?_⟩
  · rw [h.2.2.1, h.2.2.2.1, h.2.2.2.2.1]
    decide
  · rw [h.1]; decide
  · rw [h.2.1]; decide
  · exact h.2.2.2.2.2.1 _ (by rw [h.1]; decide)

/-- C6: in a batch relation insertion, an item with exactly one existing
endpoint is recorded in the skipped list with a reason naming the
missing side, no edge and no staged vector record for its normalized
pair is produced, and the remaining items are processed exactly as if
the bad item were absent (same final graph, same added list, same
vector upserts). -/
theorem insert_skipped_item_isolated
    (g : GraphStore) (pre suf : List RelationInput) (r : RelationInput)
    (hone : hasNode g (normalizeName r.src_id) ≠ hasNode g (normalizeName r.tgt_id)) :
    skipEntry g r ∈ (insert_custom_relations g (pre ++ r :: suf)).result.skipped ∧
    (hasNode g (normalizeName r.src_id) = false →
      (skipEntry g r).reason = "源实体不存在") ∧
    (hasNode g (normalizeName r.src_id) = true →
      (skipEntry g r).reason = "目标实体不存在") ∧
    getEdge (insert_custom_relations g (pre ++ r :: suf)).graph
        (normalizeName r.src_id) (normalizeName r.tgt_id)
      = getEdge g (normalizeName r.src_id) (normalizeName r.tgt_id) ∧
    (∀ call ∈ (insert_custom_relations g (pre ++ r :: suf)).relUpserts,
      ∀ kv ∈ call, ¬(kv.2.src_id = normalizeName r.src_id ∧
        kv.2.tgt_id = normalizeName r.tgt_id)) ∧
    (insert_custom_relations g (pre ++ r :: suf)).graph
      = (insert_custom_relations g (pre ++ suf)).graph ∧
    (insert_custom_relations g (pre ++ r :: suf)).result.added
      = (insert_custom_relations g (pre ++ suf)).result.added ∧
    (insert_custom_relations g (pre ++ r :: suf)).relUpserts
      = (insert_custom_relations g (pre ++ suf)).relUpserts := by
  have hcases : (hasNode g (normalizeName r.src_id) = true ∧
      hasNode g (normalizeName r.tgt_id) = false) ∨
      (hasNode g (normalizeName r.src_id) = false ∧
      hasNode g (normalizeName r.tgt_id) = true) := by
    cases hs : hasNode g (normalizeName r.src_id) <;>
      cases ht : hasNode g (normalizeName r.tgt_id) <;> simp_all
  have hok : endpointsOk g r = false := by
    unfold endpointsOk
    rcases hcases with ⟨h1, h2⟩ | ⟨h1, h2⟩ <;> rw [h1, h2] <;> simp
  have hmiss : hasNode g (normalizeName r.src_id) = false ∨
      hasNode g (normalizeName r.tgt_id) = false := by
    rcases hcases with ⟨h1, h2⟩ | ⟨h1, h2⟩
    · right; exact h2
    · left; exact h1
  have hfilter : (pre ++ r :: suf).filter (endpointsOk g)
      = (pre ++ suf).filter (endpointsOk g) := by
    rw [List.filter_append, List.filter_append, List.filter_cons]
    simp [hok]
  refine ⟨?_, ?_, ?_, ?_, ?_, ?_, ?_, ?_⟩
  · rw [insert_custom_relations_eq]
    simp only
    apply List.mem_map_of_mem
    apply List.mem_filter.mpr
    refine ⟨?_, by rw [hok]; rfl⟩
    simp
  · intro h
    unfold skipEntry
    rw [h]
    rfl
  · intro h
    unfold skipEntry
    rw [h]
    rfl
  · rw [insert_custom_relations_eq]
    simp only
    exact getEdge_foldl_graphStep g g _ _ _ rfl hmiss
  · intro call hcall kv hkv
    rintro ⟨hsrc, htgt⟩
    rw [insert_custom_relations_eq] at hcall
    simp only at hcall
    by_cases hie : ((pre ++ r :: suf).filter (endpointsOk g)).isEmpty
    · rw [if_pos hie] at hcall
      simp at hcall
    · rw [if_neg hie] at hcall
      have hc : call = dictOfPairs ((((pre ++ r :: suf).filter (endpointsOk g)).map
          stagedEntry).map stagedPair) := by
        simpa using hcall
      rw [hc] at hkv
      have hmem := mem_dictOfPairs _ _ hkv
      rcases List.mem_map.mp hmem with ⟨dp, hdp_mem, hdp⟩
      rcases List.mem_map.mp hdp_mem with ⟨r', hr'_mem, hr'⟩
      have hr'_ok : endpointsOk g r' = true :=
        (List.mem_filter.mp hr'_mem).2
      have hkv_src : kv.2.src_id = normalizeName r'.src_id := by
        rw [← hdp, ← hr']
        rfl
      have hkv_tgt : kv.2.tgt_id = normalizeName r'.tgt_id := by
        rw [← hdp, ← hr']
        rfl
      unfold endpointsOk at hr'_ok
      rw [Bool.and_eq_true] at hr'_ok
      have hns : hasNode g (normalizeName r.src_id) = true := by
        rw [← hsrc, hkv_src]
        exact hr'_ok.1
      have hnt : hasNode g (normalizeName r.tgt_id) = true := by
        rw [← htgt, hkv_tgt]
        exact hr'_ok.2
      rcases hmiss with hm | hm
      · rw [hns] at hm; exact absurd hm (by simp)
      · rw [hnt] at hm; exact absurd hm (by simp)
  · rw [insert_custom_relations_eq, insert_custom_relations_eq]
    simp only
    exact foldl_graphStep_drop_not_ok g pre suf r hok
  · rw [insert_custom_relations_eq, insert_custom_relations_eq]
    simp only
    rw [hfilter]
  · rw [insert_custom_relations_eq, insert_custom_relations_eq]
    simp only
    rw [hfilter]

theorem insert_skipped_item_isolated_witness :
    hasNode gAB (normalizeName rAC.src_id) ≠ hasNode gAB (normalizeName rAC.tgt_id) ∧
    skipEntry gAB rAC ∈ (insert_custom_relations gAB ([] ++ rAC :: [rAB])).result.skipped ∧
    (skipEntry gAB rAC).reason = "目标实体不存在" ∧
    (insert_custom_relations gAB ([] ++ rAC :: [rAB])).result.added
      = (insert_custom_relations gAB ([] ++ [rAB])).result.added := by
  have h := insert_skipped_item_isolated gAB [] [rAB] rAC (by decide)
  exact ⟨by decide, h.1, h.2.2.1 (by decide), h.2.2.2.2.2.2.1⟩
